import Mathlib

/-!
# Verification of the pdf-space-filler core pipeline

A shallow embedding, over `ℚ`, `Nat` and `String`, of the core computational
pipeline of the pdf-space-filler repository:

* the document/field store (`src/store/usePdfStore.ts`),
* the text-run detector (`src/utils/detection.ts`),
* the form synthesizer's geometry and naming logic (`buildFillablePdf` in `src/App.tsx`),
* the archive serializer (`src/utils/zip.ts`),
* the export orchestrator (`handleExportCurrent` / `handleExportAll` in `src/App.tsx`).

JavaScript numbers are modelled by `ℚ`, byte values by `Nat` (reduced modulo
2^8/2^16/2^32 exactly where the code masks), and the external PDF accessor
(pdf.js / pdf-lib) appears only through the data it hands the core: per-item
text strings, transforms and optional glyph metrics, and the page viewport
conversion, which is modelled from the specification's description of the
content→display transform.
-/

namespace PdfFill

/-! ## Data model (`src/store/usePdfStore.ts`) -/

/-- `Field` from `usePdfStore.ts`: a rectangle anchored to one page,
in display-space units. `confidence` is present only on detector output. -/
structure Field where
  id : String
  pageIndex : Nat
  x : ℚ
  y : ℚ
  width : ℚ
  height : ℚ
  multiline : Bool
  confidence : Option ℚ := none
  name : String
  placeholder : Option String := none
deriving DecidableEq, Repr

/-- `PageMeta` from `usePdfStore.ts`: one page's geometry. -/
structure PageMeta where
  index : Nat
  width : ℚ
  height : ℚ
  originalWidth : ℚ
  originalHeight : ℚ
  scale : ℚ
deriving DecidableEq, Repr

/-- `PdfDocumentRecord` from `usePdfStore.ts`.  The `pdfDoc` handle is an
external pdf.js proxy object whose only use inside the store is the
`destroy()` resource release; it carries no state the store reads, so it is
omitted from the embedding. -/
structure PdfDocumentRecord where
  id : String
  fileName : String
  documentData : List Nat
  pages : List PageMeta
  fields : List Field
  selectedFieldId : Option String := none
deriving DecidableEq, Repr

/-- The zustand store state: `documents` plus `activeDocumentId`. -/
structure PdfState where
  documents : List PdfDocumentRecord
  activeDocumentId : Option String := none
deriving DecidableEq, Repr

/-- A `Partial<Field>` patch: each property is optionally overridden
(`{ ...field, ...updates }`).  For the properties that are themselves
optional on `Field`, overriding replaces the stored option. -/
structure FieldPatch where
  id : Option String := none
  pageIndex : Option Nat := none
  x : Option ℚ := none
  y : Option ℚ := none
  width : Option ℚ := none
  height : Option ℚ := none
  multiline : Option Bool := none
  confidence : Option (Option ℚ) := none
  name : Option String := none
  placeholder : Option (Option String) := none
deriving DecidableEq, Repr

/-- The spread `{ ...field, ...updates }` of `updateField`. -/
def applyPatch (f : Field) (p : FieldPatch) : Field :=
  { id := p.id.getD f.id
    pageIndex := p.pageIndex.getD f.pageIndex
    x := p.x.getD f.x
    y := p.y.getD f.y
    width := p.width.getD f.width
    height := p.height.getD f.height
    multiline := p.multiline.getD f.multiline
    confidence := p.confidence.getD f.confidence
    name := p.name.getD f.name
    placeholder := p.placeholder.getD f.placeholder }

/-- `updateDocument` helper from `usePdfStore.ts` (lines 51–56): map the
updater over the document with the matching id, leaving the rest alone. -/
def updateDocument (documents : List PdfDocumentRecord) (id : String)
    (updater : PdfDocumentRecord → PdfDocumentRecord) : List PdfDocumentRecord :=
  documents.map fun d => if d.id = id then updater d else d

/-- `addDocument`: append the entry and make it active. -/
def addDocumentOp (entry : PdfDocumentRecord) (s : PdfState) : PdfState :=
  { documents := s.documents ++ [entry], activeDocumentId := some entry.id }

/-- `removeDocument`: drop the document and, when it was active, fall back to
the first remaining document (or none). -/
def removeDocumentOp (id : String) (s : PdfState) : PdfState :=
  let remaining := s.documents.filter fun d => d.id ≠ id
  let nextActive :=
    if s.activeDocumentId = some id then
      (remaining.head?).map (·.id)
    else s.activeDocumentId
  { documents := remaining, activeDocumentId := nextActive }

/-- `clearAll`: empty store. -/
def clearAllOp (_s : PdfState) : PdfState :=
  { documents := [], activeDocumentId := none }

/-- `setActiveDocument`: select `id` only when such a document exists. -/
def setActiveDocumentOp (id : String) (s : PdfState) : PdfState :=
  { s with
    activeDocumentId :=
      if s.documents.any fun d => d.id = id then some id else s.activeDocumentId }

/-- `addField`: append to the targeted document's fields; the new field
becomes selected. -/
def addFieldOp (documentId : String) (field : Field) (s : PdfState) : PdfState :=
  { s with
    documents := updateDocument s.documents documentId fun d =>
      { d with fields := d.fields ++ [field], selectedFieldId := some field.id } }

/-- `updateField`: patch the matching field in place. -/
def updateFieldOp (documentId : String) (fieldId : String) (updates : FieldPatch)
    (s : PdfState) : PdfState :=
  { s with
    documents := updateDocument s.documents documentId fun d =>
      { d with
        fields := d.fields.map fun f => if f.id = fieldId then applyPatch f updates else f } }

/-- `removeField`: drop the field; clear the selection when it pointed at the
removed field. -/
def removeFieldOp (documentId : String) (fieldId : String) (s : PdfState) : PdfState :=
  { s with
    documents := updateDocument s.documents documentId fun d =>
      { d with
        fields := d.fields.filter fun f => f.id ≠ fieldId
        selectedFieldId :=
          if d.selectedFieldId = some fieldId then none else d.selectedFieldId } }

/-- `setFields`: replace all fields; the last one (if any) becomes selected. -/
def setFieldsOp (documentId : String) (fields : List Field) (s : PdfState) : PdfState :=
  { s with
    documents := updateDocument s.documents documentId fun d =>
      { d with fields := fields, selectedFieldId := fields.getLast?.map (·.id) } }

/-- The duplicate test of `mergeFields` (lines 137–143): same page and all
three deltas inside the 10/10/15 thresholds. -/
def isDup (existing candidate : Field) : Prop :=
  existing.pageIndex = candidate.pageIndex ∧
    |existing.x - candidate.x| < 10 ∧
    |existing.y - candidate.y| < 10 ∧
    |existing.width - candidate.width| < 15

instance (e c : Field) : Decidable (isDup e c) := by
  unfold isDup; infer_instance

/-- The `candidates.forEach` loop of `mergeFields`: starting from the
document's fields, append each candidate that is not a duplicate of any
field accumulated so far. -/
def mergeList (existing : List Field) : List Field → List Field
  | [] => existing
  | c :: cs =>
    if ∃ e ∈ existing, isDup e c then mergeList existing cs
    else mergeList (existing ++ [c]) cs

/-- Spec-side merge policy, written from the spec's words: a candidate is
kept exactly when no field already present — pre-existing or accepted
earlier in this pass — is a §4.2 duplicate of it; kept candidates appear in
candidate order. -/
def mergeKeeps (existing : List Field) : List Field → List Field
  | [] => []
  | c :: cs =>
    if ∃ e ∈ existing, isDup e c then mergeKeeps existing cs
    else c :: mergeKeeps (existing ++ [c]) cs

/-- `mergeFields`: merge detector candidates into the targeted document; the
last field of the combined list becomes selected. -/
def mergeFieldsOp (documentId : String) (candidates : List Field) (s : PdfState) : PdfState :=
  { s with
    documents := updateDocument s.documents documentId fun d =>
      let combined := mergeList d.fields candidates
      { d with fields := combined, selectedFieldId := combined.getLast?.map (·.id) } }

/-- `selectField`: store the (possibly absent) field id unconditionally. -/
def selectFieldOp (documentId : String) (fieldId : Option String) (s : PdfState) : PdfState :=
  { s with
    documents := updateDocument s.documents documentId fun d =>
      { d with selectedFieldId := fieldId } }

/-- The store's mutation alphabet. -/
inductive StoreOp
  | addDocument (entry : PdfDocumentRecord)
  | removeDocument (id : String)
  | clearAll
  | setActiveDocument (id : String)
  | addField (documentId : String) (field : Field)
  | updateField (documentId : String) (fieldId : String) (updates : FieldPatch)
  | removeField (documentId : String) (fieldId : String)
  | setFields (documentId : String) (fields : List Field)
  | mergeFields (documentId : String) (candidates : List Field)
  | selectField (documentId : String) (fieldId : Option String)
deriving DecidableEq, Repr

/-- Interpret one store operation. -/
def applyOp (s : PdfState) : StoreOp → PdfState
  | .addDocument entry => addDocumentOp entry s
  | .removeDocument id => removeDocumentOp id s
  | .clearAll => clearAllOp s
  | .setActiveDocument id => setActiveDocumentOp id s
  | .addField documentId field => addFieldOp documentId field s
  | .updateField documentId fieldId updates => updateFieldOp documentId fieldId updates s
  | .removeField documentId fieldId => removeFieldOp documentId fieldId s
  | .setFields documentId fields => setFieldsOp documentId fields s
  | .mergeFields documentId candidates => mergeFieldsOp documentId candidates s
  | .selectField documentId fieldId => selectFieldOp documentId fieldId s

/-- Run a list of store operations from a state. -/
def runOps (s : PdfState) (ops : List StoreOp) : PdfState :=
  ops.foldl applyOp s

/-- The store's initial state (`documents: [], activeDocumentId: undefined`). -/
def initialState : PdfState := { documents := [], activeDocumentId := none }

/-- A document's `selectedFieldId` is absent or references one of its fields. -/
def SelectedOkDoc (d : PdfDocumentRecord) : Prop :=
  match d.selectedFieldId with
  | none => True
  | some fid => fid ∈ d.fields.map (·.id)

instance (d : PdfDocumentRecord) : Decidable (SelectedOkDoc d) := by
  unfold SelectedOkDoc; cases d.selectedFieldId <;> infer_instance

/-- Every document in the store satisfies `SelectedOkDoc`. -/
def SelectedInv (s : PdfState) : Prop :=
  ∀ d ∈ s.documents, SelectedOkDoc d

instance (s : PdfState) : Decidable (SelectedInv s) :=
  List.decidableBAll _ s.documents

/-- The usage discipline under which the store maintains `SelectedInv`:
added documents already satisfy it, `updateField` patches never rewrite a
field's `id`, and `selectField` is only handed ids of fields that exist in
the targeted document. -/
def GoodOp (s : PdfState) : StoreOp → Prop
  | .addDocument entry => SelectedOkDoc entry
  | .updateField _ _ updates => updates.id = none
  | .selectField documentId fieldId =>
    match fieldId with
    | none => True
    | some fid => ∀ d ∈ s.documents, d.id = documentId → fid ∈ d.fields.map (·.id)
  | _ => True

/-- A run of operations each of which respects `GoodOp` at its pre-state. -/
def ValidRun : PdfState → List StoreOp → Prop
  | _, [] => True
  | s, op :: ops => GoodOp s op ∧ ValidRun (applyOp s op) ops

/-- The frame contract of a document-targeting mutation: the active id is
untouched, the documents list keeps its length and order, every document
whose id is not the target survives unchanged in place, and when no
document carries the target id the whole state is unchanged. -/
def FramePreserved (s : PdfState) (documentId : String) (t : PdfState) : Prop :=
  t.activeDocumentId = s.activeDocumentId ∧
    t.documents.length = s.documents.length ∧
    (∀ (i : Nat) (d : PdfDocumentRecord),
      s.documents[i]? = some d → d.id ≠ documentId → t.documents[i]? = some d) ∧
    ((∀ d ∈ s.documents, d.id ≠ documentId) → t = s)

/-! ## Text-run detector (`src/utils/detection.ts`) -/

/-- `MIN_UNDERSCORE_RUN` (detection.ts line 984). -/
def MIN_UNDERSCORE_RUN : Nat := 8

/-- `MIN_FIELD_WIDTH` of the detection module (detection.ts line 985).
Note this is 20, not the 80 used by the interactive editor in `App.tsx`. -/
def DETECT_MIN_FIELD_WIDTH : ℚ := 20

/-- `MIN_FIELD_HEIGHT` of the detection module (detection.ts line 986).
Note this is 14, not the 22 used by the interactive editor in `App.tsx`. -/
def DETECT_MIN_FIELD_HEIGHT : ℚ := 14

/-- `FIELD_VERTICAL_OFFSET` (detection.ts line 987). -/
def FIELD_VERTICAL_OFFSET : ℚ := -2

/-- One glyph's character span and advance width, as produced by
`buildGlyphMetrics` from the external font object. -/
structure GlyphSegment where
  start : ℚ
  stop : ℚ
  width : ℚ
deriving DecidableEq, Repr

/-- Glyph measurement data for a text item (`GlyphMetrics` in detection.ts).
`buildGlyphMetrics` reads it from the external pdf.js font object, so the
embedding takes it as item data (`none` models every fallback branch of
`buildGlyphMetrics`). -/
structure GlyphMetrics where
  totalUnits : ℚ
  segments : List GlyphSegment
deriving DecidableEq, Repr

/-- One text-layout item as consumed by the detector.  `baseX`/`baseY` are
`transform[4]`/`transform[5]`; `fontScale` stands for the value
`Math.sqrt(transform[2]² + transform[3]²)` the source computes (carried as
data because square roots leave `ℚ`); `rtl` is `item.dir === 'rtl'`. -/
structure TextItem where
  str : String
  width : ℚ
  baseX : ℚ
  baseY : ℚ
  fontScale : ℚ
  rtl : Bool
  glyph : Option GlyphMetrics
deriving DecidableEq, Repr

/-- The segment walk of `measureRunUsingGlyphs` (detection.ts lines
1055–1091): accumulate prefix units before the run and run units inside it,
splitting any glyph the run boundary cuts proportionally; stop at the first
segment past the run's end. -/
def measureRunGo (runStart runEnd : ℚ) : List GlyphSegment → ℚ → ℚ → ℚ × ℚ
  | [], prefixUnits, runUnits => (prefixUnits, runUnits)
  | seg :: rest, prefixUnits, runUnits =>
    if seg.stop ≤ runStart then
      measureRunGo runStart runEnd rest (prefixUnits + seg.width) runUnits
    else if runEnd ≤ seg.start then
      (prefixUnits, runUnits)
    else
      let segmentSpan := max (seg.stop - seg.start) 1
      let prefixUnits' :=
        if seg.start < runStart then
          prefixUnits + seg.width * ((runStart - seg.start) / segmentSpan)
        else prefixUnits
      let overlapStart := max seg.start runStart
      let overlapEnd := min seg.stop runEnd
      let overlapLength := max (overlapEnd - overlapStart) 0
      let runUnits' :=
        if 0 < overlapLength then runUnits + seg.width * overlapLength / segmentSpan
        else runUnits
      measureRunGo runStart runEnd rest prefixUnits' runUnits'

/-- `measureRunUsingGlyphs`: glyph-unit prefix width and run width. -/
def measureRunUsingGlyphs (metrics : GlyphMetrics) (runStart runLength : ℚ) : ℚ × ℚ :=
  measureRunGo runStart (runStart + runLength) metrics.segments 0 0

/-- `clampSize` (detection.ts lines 1093–1098).  `ℚ` values are always
finite, so `Number.isFinite(available)` is just `True` here. -/
def clampSize (value min' available : ℚ) : ℚ :=
  let safeAvailable := if 0 < available then available else min'
  let lowerBound := min min' safeAvailable
  let expanded := max value lowerBound
  min expanded safeAvailable

/-- Maximal runs of underscores in a character list, as `(start, length)`
pairs in order of appearance (any length; the regex filter comes next).
The scan walks the characters once, carrying the open run, if any. -/
def runsScan : List Char → Nat → Option (Nat × Nat) → List (Nat × Nat)
  | [], _, none => []
  | [], _, some r => [r]
  | c :: rest, pos, none =>
    if c = '_' then runsScan rest (pos + 1) (some (pos, 1))
    else runsScan rest (pos + 1) none
  | c :: rest, pos, some r =>
    if c = '_' then runsScan rest (pos + 1) (some (r.1, r.2 + 1))
    else r :: runsScan rest (pos + 1) none

/-- The matches of `/(_{3,})/g` over the item string: every maximal run of
three or more consecutive underscores, with its start offset. -/
def underscoreRuns (s : List Char) : List (Nat × Nat) :=
  (runsScan s 0 none).filter fun r => 3 ≤ r.2

/-- Modelled from the spec: the external pdf.js
`viewport.convertToViewportRectangle` for an unrotated page — the
content→display transform that renders the page at its stored scale, i.e.
`x ↦ scale·x`, `y ↦ scale·(originalHeight − y)` applied to both corners
(§4.1 step 7 and the glossary's display-space description). -/
def convertRect (pm : PageMeta) (rx1 ry1 rx2 ry2 : ℚ) : ℚ × ℚ × ℚ × ℚ :=
  (pm.scale * rx1, pm.scale * (pm.originalHeight - ry1),
   pm.scale * rx2, pm.scale * (pm.originalHeight - ry2))

/-- `rawWidth` of the converted rectangle (detection.ts line 1170). -/
def rawWidthOf (x1 x2 : ℚ) : ℚ := |x2 - x1|

/-- `rawHeight` with its degenerate-rectangle fallback (line 1171). -/
def rawHeightOf (pm : PageMeta) (y1 y2 fontHeight : ℚ) : ℚ :=
  if |y2 - y1| = 0 then fontHeight * pm.scale * (2/5) else |y2 - y1|

/-- The width after `minWidthTarget` widening (lines 1172–1176); the
available room is measured from the pre-clamp `x = min(x1, x2)`. -/
def widthClamped (pm : PageMeta) (x1 x2 : ℚ) : ℚ :=
  let x0 := min x1 x2
  let rawWidth := rawWidthOf x1 x2
  let minWidthTarget :=
    max DETECT_MIN_FIELD_WIDTH (if rawWidth = 0 then DETECT_MIN_FIELD_WIDTH else rawWidth)
  let width0 := clampSize rawWidth DETECT_MIN_FIELD_WIDTH (pm.width - x0)
  if width0 < minWidthTarget then min minWidthTarget (pm.width - x0) else width0

/-- The final height: raised to `MIN_FIELD_HEIGHT`, capped by the page and
by `MIN_FIELD_HEIGHT + 16` (lines 1177–1182). -/
def heightClamped (pm : PageMeta) (y1 y2 fontHeight : ℚ) : ℚ :=
  min (clampSize (rawHeightOf pm y1 y2 fontHeight) DETECT_MIN_FIELD_HEIGHT pm.height)
    (DETECT_MIN_FIELD_HEIGHT + 16)

/-- The final top edge: centered on the run's band, clamped into the page,
then shifted by `FIELD_VERTICAL_OFFSET` and re-clamped (lines 1183–1193). -/
def yClamped (pm : PageMeta) (y1 y2 fontHeight : ℚ) : ℚ :=
  let height := heightClamped pm y1 y2 fontHeight
  let centerY := (y1 + y2) / 2
  let yA := centerY - height
  let yB := if yA < 0 then 0 else yA
  let yC := if pm.height < yB + height then max (pm.height - height) 0 else yB
  if FIELD_VERTICAL_OFFSET ≠ 0 then
    min (max (yC + FIELD_VERTICAL_OFFSET) 0) (max (pm.height - height) 0)
  else yC

/-- The final left edge `x = max(x, 0)` (line 1194). -/
def xFinal (x1 x2 : ℚ) : ℚ := max (min x1 x2) 0

/-- The final width, shrunk when the rectangle overruns the right page edge
(lines 1195–1197). -/
def widthFinal (pm : PageMeta) (x1 x2 : ℚ) : ℚ :=
  if pm.width < xFinal x1 x2 + widthClamped pm x1 x2 then max (pm.width - xFinal x1 x2) 1
  else widthClamped pm x1 x2

/-- The clamping stage of `detectFieldsForPage` (detection.ts lines
1168–1197): from the converted rectangle `[x1, y1, x2, y2]` and the item's
font height, produce the final display-space `(x, y, width, height)`. -/
def clampRunRect (pm : PageMeta) (x1 y1 x2 y2 fontHeight : ℚ) : ℚ × ℚ × ℚ × ℚ :=
  (xFinal x1 x2, yClamped pm y1 y2 fontHeight,
   widthFinal pm x1 x2, heightClamped pm y1 y2 fontHeight)

/-- Everything `detectFieldsForPage` does for one underscore run of one text
item (detection.ts lines 1132–1197): drop runs shorter than
`MIN_UNDERSCORE_RUN`, measure the run (glyph-accurate when possible, uniform
per-character estimate otherwise), drop runs of non-positive width, convert
to display space and clamp.  Returns the geometry, or `none` for a
`continue`. -/
def processRun (pm : PageMeta) (item : TextItem) (startOffset runLength : Nat) :
    Option (ℚ × ℚ × ℚ × ℚ) :=
  if runLength < MIN_UNDERSCORE_RUN then none
  else
    let glyphCount : Nat := if item.str.length = 0 then 1 else item.str.length
    let itemWidth := item.width
    let charWidth : ℚ := itemWidth / (glyphCount : ℚ)
    let fontHeight : ℚ := if item.fontScale = 0 then 10 else item.fontScale
    let fallbackPair : ℚ × ℚ := (charWidth * (startOffset : ℚ), charWidth * (runLength : ℚ))
    let measured : ℚ × ℚ :=
      match item.glyph with
      | none => fallbackPair
      | some metrics =>
        let pr := measureRunUsingGlyphs metrics (startOffset : ℚ) (runLength : ℚ)
        let scale := if metrics.totalUnits ≠ 0 then itemWidth / metrics.totalUnits else 0
        if 0 < scale ∧ 0 < pr.2 then (pr.1 * scale, pr.2 * scale) else fallbackPair
    let measuredStartOffset := measured.1
    let measuredWidth := measured.2
    let sourceX :=
      if item.rtl then item.baseX - (measuredStartOffset + measuredWidth)
      else item.baseX + measuredStartOffset
    let fallbackWidth := if 0 < charWidth then charWidth * (runLength : ℚ) else itemWidth
    let lineWidth := if 0 < measuredWidth then measuredWidth else fallbackWidth
    if ¬ 0 < lineWidth then none
    else
      let rect := convertRect pm sourceX (item.baseY - fontHeight * (3/5))
        (sourceX + lineWidth) (item.baseY + fontHeight * (1/5))
      some (clampRunRect pm rect.1 rect.2.1 rect.2.2.1 rect.2.2.2 fontHeight)

/-- The geometry list a page's detection produces, in item order then run
order. -/
def pageRects (pm : PageMeta) (items : List TextItem) : List (ℚ × ℚ × ℚ × ℚ) :=
  items.flatMap fun item =>
    (underscoreRuns item.str.data).filterMap fun r => processRun pm item r.1 r.2

/-- The detector's sequential per-page field name:
`page{N}_field_{K}` with `N = pageIndex + 1` and `K` 1-based. -/
def fieldNameStr (pageIndex k : Nat) : String :=
  "page" ++ Nat.repr (pageIndex + 1) ++ "_field_" ++ Nat.repr k

/-- Wrap the `k`-th produced geometry (0-based) as a detector `Field`
(detection.ts lines 1199–1211).  `makeId` calls the external random UUID
generator; ids play no role in any property of the detector, so the
embedding leaves them empty. -/
def mkDetectedField (pm : PageMeta) (k : Nat) (g : ℚ × ℚ × ℚ × ℚ) : Field :=
  { id := ""
    pageIndex := pm.index
    x := g.1
    y := g.2.1
    width := g.2.2.1
    height := g.2.2.2
    multiline := false
    confidence := some (3/5)
    name := fieldNameStr pm.index (k + 1)
    placeholder := none }

/-- `detectFieldsForPage`: all fields detected on one page, named
sequentially. -/
def detectFieldsForPage (pm : PageMeta) (items : List TextItem) : List Field :=
  (pageRects pm items).enum.map fun p => mkDetectedField pm p.1 p.2

/-- `detectFields`: aggregate `detectFieldsForPage` over a document's pages
in page order (the items each page's `getTextContent` returns are paired
with its `PageMeta`). -/
def detectFields (pages : List (PageMeta × List TextItem)) : List Field :=
  pages.flatMap fun p => detectFieldsForPage p.1 p.2

/-! ## Form synthesizer (`buildFillablePdf` in `src/App.tsx`) -/

/-- The per-field placement transform of `buildFillablePdf` (App.tsx lines
506–510): display space → PDF content space, flipping to the PDF's
bottom-left origin.  Returns `(x, y, width, height)`. -/
def exportRect (pm : PageMeta) (f : Field) : ℚ × ℚ × ℚ × ℚ :=
  let x := f.x / pm.scale
  let yFromTop := f.y / pm.scale
  let width := f.width / pm.scale
  let height := f.height / pm.scale
  (x, pm.originalHeight - yFromTop - height, width, height)

/-- The inverse measurement stated by the spec (§8 round-trip): read a
placed widget's PDF-space rectangle back into display space. -/
def measureBackRect (pm : PageMeta) (r : ℚ × ℚ × ℚ × ℚ) : ℚ × ℚ × ℚ × ℚ :=
  (r.1 * pm.scale,
   (pm.originalHeight - r.2.1 - r.2.2.2) * pm.scale,
   r.2.2.1 * pm.scale,
   r.2.2.2 * pm.scale)

/-- `field.name || 'field'` (App.tsx line 512): the empty string is falsy. -/
def baseNameOf (f : Field) : String :=
  if f.name = "" then "field" else f.name

/-- The widget-name assignment loop of `buildFillablePdf` (App.tsx lines
498–517): `usage` is the `nameUsage` map (`get ?? 0` modelled as a total
function defaulting to 0); a field whose `pageIndex` has no page entry is
skipped entirely (`if (!pageMeta) return`). -/
def synthNamesAux (pages : List PageMeta) (usage : String → Nat) :
    List Field → List String
  | [] => []
  | f :: fs =>
    if (pages[f.pageIndex]?).isNone then synthNamesAux pages usage fs
    else
      let baseName := baseNameOf f
      let usageCount := usage baseName
      let uniqueName :=
        if usageCount = 0 then baseName
        else baseName ++ "_" ++ Nat.repr (usageCount + 1)
      uniqueName ::
        synthNamesAux pages (fun s => if s = baseName then usageCount + 1 else usage s) fs

/-- The widget names `buildFillablePdf` creates, in field processing
order (the widget creation itself is external pdf-lib work). -/
def synthWidgetNames (pages : List PageMeta) (fields : List Field) : List String :=
  synthNamesAux pages (fun _ => 0) fields

/-- The spec's collision policy, written from its words: the first
occurrence of a base name keeps it, the k-th occurrence is suffixed `_k`. -/
def specGen (b : String) (k : Nat) : String :=
  if k = 1 then b else b ++ "_" ++ Nat.repr k

/-- Spec-side name assignment: each processed base name is numbered by how
often it occurred up to and including its own position. -/
def specAssign (prev : List String) : List String → List String
  | [] => []
  | b :: bs => specGen b (prev.count b + 1) :: specAssign (prev ++ [b]) bs

/-- The base names of the fields `buildFillablePdf` actually processes. -/
def processedBases (pages : List PageMeta) (fields : List Field) : List String :=
  (fields.filter fun f => (pages[f.pageIndex]?).isSome).map baseNameOf

/-! ## Archive serializer (`src/utils/zip.ts`) -/

/-- A JavaScript `Date`, restricted to the locale fields the serializer
reads; `month` is 0-based like `Date.getMonth()`. -/
structure JsDate where
  year : Nat
  month : Nat
  day : Nat
  hours : Nat
  minutes : Nat
  seconds : Nat
deriving DecidableEq, Repr

/-- `toDosDate` (zip.ts lines 1259–1277): MS-DOS packed time and date, with
the year clamped into `[1980, 2107]`. -/
def toDosDate (d : JsDate) : Nat × Nat :=
  let dosTime :=
    ((d.hours &&& 0x1f) <<< 11) ||| ((d.minutes &&& 0x3f) <<< 5) ||| ((d.seconds / 2) &&& 0x1f)
  let dosDate :=
    (((max 1980 (min d.year 2107) - 1980) &&& 0x7f) <<< 9) |||
      (((d.month + 1) &&& 0xf) <<< 5) ||| (d.day &&& 0x1f)
  (dosTime, dosDate)

/-- One archive entry (`ZipEntry` in zip.ts). -/
structure ZipEntry where
  name : String
  data : List Nat
  date : Option JsDate := none
deriving DecidableEq, Repr

/-- Modelled from the spec: the platform `TextEncoder` (WHATWG UTF-8) used
for filename bytes — standard 1-to-4-byte UTF-8 of the code point. -/
def utf8EncodeChar (c : Char) : List Nat :=
  let n := c.toNat
  if n < 0x80 then [n]
  else if n < 0x800 then
    [0xc0 ||| (n >>> 6), 0x80 ||| (n &&& 0x3f)]
  else if n < 0x10000 then
    [0xe0 ||| (n >>> 12), 0x80 ||| ((n >>> 6) &&& 0x3f), 0x80 ||| (n &&& 0x3f)]
  else
    [0xf0 ||| (n >>> 18), 0x80 ||| ((n >>> 12) &&& 0x3f),
     0x80 ||| ((n >>> 6) &&& 0x3f), 0x80 ||| (n &&& 0x3f)]

/-- `encoder.encode(file.name)`: the filename's UTF-8 bytes. -/
def encodeName (s : String) : List Nat :=
  s.data.flatMap utf8EncodeChar

/-- One round of the CRC-32 table generator (zip.ts lines 1236–1243):
`value & 1 ? 0xEDB88320 ^ (value >>> 1) : value >>> 1`. -/
def crcStep (v : Nat) : Nat :=
  if v % 2 = 1 then 0xedb88320 ^^^ (v / 2) else v / 2

/-- `CRC32_TABLE[i]`: eight `crcStep` rounds applied to the byte `i`. -/
def crc32Table (i : Nat) : Nat :=
  (List.range 8).foldl (fun v _ => crcStep v) (i % 256)

/-- `computeCrc32` (zip.ts lines 1249–1257): table-driven reflected CRC-32,
one byte at a time, initial and final XOR `0xFFFFFFFF`. -/
def computeCrc32 (data : List Nat) : Nat :=
  (data.foldl (fun crc b => (crc / 256) ^^^ crc32Table ((crc ^^^ b) % 256)) 0xffffffff)
    ^^^ 0xffffffff

/-- Little-endian 16-bit encoding (`writeUint16` masks with `0xFFFF`). -/
def le16 (v : Nat) : List Nat :=
  [v % 256, v / 256 % 256]

/-- Little-endian 32-bit encoding (`writeUint32` truncates with `>>> 0`). -/
def le32 (v : Nat) : List Nat :=
  [v % 256, v / 256 % 256, v / 65536 % 256, v / 16777216 % 256]

/-- The `dosTime`/`dosDate` the serializer stores for an entry:
`toDosDate(file.date ?? new Date())`, where `now` stands for the wall-clock
`new Date()` fallback. -/
def entryDos (now : JsDate) (e : ZipEntry) : Nat × Nat :=
  toDosDate (e.date.getD now)

/-- An entry's local section: the 30-byte local file header (signature
`0x04034B50`, store method, sizes, CRC-32), the filename bytes and the raw
entry bytes (zip.ts lines 1344–1360). -/
def localChunk (now : JsDate) (e : ZipEntry) : List Nat :=
  le32 0x04034b50 ++ le16 20 ++ le16 0 ++ le16 0 ++
    le16 (entryDos now e).1 ++ le16 (entryDos now e).2 ++
    le32 (computeCrc32 e.data) ++ le32 e.data.length ++ le32 e.data.length ++
    le16 (encodeName e.name).length ++ le16 0 ++
    encodeName e.name ++ e.data

/-- An entry's 46-byte central-directory record (signature `0x02014B50`)
followed by the filename bytes (zip.ts lines 1364–1384). -/
def centralChunk (now : JsDate) (e : ZipEntry) (localHeaderOffset : Nat) : List Nat :=
  le32 0x02014b50 ++ le16 20 ++ le16 20 ++ le16 0 ++ le16 0 ++
    le16 (entryDos now e).1 ++ le16 (entryDos now e).2 ++
    le32 (computeCrc32 e.data) ++ le32 e.data.length ++ le32 e.data.length ++
    le16 (encodeName e.name).length ++ le16 0 ++ le16 0 ++ le16 0 ++ le16 0 ++
    le32 0 ++ le32 localHeaderOffset ++
    encodeName e.name

/-- The byte size of an entry's local section (`localHeaderLength` plus the
data length: `30 + nameBytes.length + data.length`). -/
def localSize (e : ZipEntry) : Nat :=
  30 + (encodeName e.name).length + e.data.length

/-- The byte size of an entry's central-directory record
(`centralHeaderLength = 46 + nameBytes.length`). -/
def centralSize (e : ZipEntry) : Nat :=
  46 + (encodeName e.name).length

/-- The central-directory records in order, threading each entry's
`localHeaderOffset` exactly as the serializer's offset accumulation does. -/
def centralChunks (now : JsDate) : List ZipEntry → Nat → List (List Nat)
  | [], _ => []
  | e :: es, offset => centralChunk now e offset :: centralChunks now es (offset + localSize e)

/-- `entry.localHeaderOffset` of the `i`-th entry: the summed local-section
sizes of the entries before it. -/
def localOffsetAt (files : List ZipEntry) (i : Nat) : Nat :=
  ((files.take i).map localSize).sum

/-- The byte offset of the `i`-th central-directory record inside the blob:
all local sections, then the earlier central records. -/
def centralOffsetAt (files : List ZipEntry) (i : Nat) : Nat :=
  (files.map localSize).sum + ((files.take i).map centralSize).sum

/-- The 22-byte end-of-central-directory record (signature `0x06054B50`):
entry counts, central-directory size and starting offset (zip.ts lines
1386–1393). -/
def eocdChunk (files : List ZipEntry) : List Nat :=
  le32 0x06054b50 ++ le16 0 ++ le16 0 ++
    le16 files.length ++ le16 files.length ++
    le32 ((files.map centralSize).sum) ++ le32 ((files.map localSize).sum) ++ le16 0

/-- `createZipFromFiles`: the blob's bytes — every entry's local section in
order, then every central-directory record, then the end record.  The
source writes these sequentially into an exactly-sized buffer through a
little-endian `DataView`; `now` stands for the `new Date()` used when an
entry carries no date. -/
def createZipFromFiles (now : JsDate) (files : List ZipEntry) : List Nat :=
  (files.map (localChunk now)).flatten ++ (centralChunks now files 0).flatten ++
    eocdChunk files

/-! ## Export orchestrator (`handleExportCurrent` / `handleExportAll`) -/

/-- `fileName.replace(/\.pdf$/i, '') + '-fillable.pdf'` (App.tsx lines 789
and 815): strip one trailing `.pdf` case-insensitively, then append. -/
def derivedName (fileName : String) : String :=
  (if fileName.toLower.endsWith ".pdf" then fileName.dropRight 4 else fileName) ++
    "-fillable.pdf"

/-- `handleExportCurrent` (App.tsx lines 770–798), with the external
pdf-lib synthesis abstracted as `build`: a missing active document or one
with no fields is rejected with the recoverable error banner and produces
no bytes. -/
def handleExportCurrent (build : PdfDocumentRecord → List Nat)
    (activeDocument : Option PdfDocumentRecord) : Except String (List Nat) :=
  match activeDocument with
  | none => .error "Nothing to export yet. Add fields first."
  | some d =>
    if d.fields.isEmpty then .error "Nothing to export yet. Add fields first."
    else .ok (build d)

/-- The `files` array `handleExportAll` accumulates: one
`(derived-filename, bytes)` pair per document with at least one field,
in snapshot order. -/
def exportFiles (build : PdfDocumentRecord → List Nat)
    (snapshot : List PdfDocumentRecord) : List (String × List Nat) :=
  snapshot.filterMap fun d =>
    if d.fields.isEmpty then none else some (derivedName d.fileName, build d)

/-- `handleExportAll` (App.tsx lines 800–837), with the external pdf-lib
synthesis abstracted as `build`: skip field-less documents, derive each
remaining filename, and hand the `(name, bytes)` pairs to the archive
serializer; an empty snapshot or an all-empty snapshot is a recoverable
error and produces no archive. -/
def handleExportAll (build : PdfDocumentRecord → List Nat)
    (snapshot : List PdfDocumentRecord) : Except String (List (String × List Nat)) :=
  if snapshot.isEmpty then .error "No documents to export."
  else if (exportFiles build snapshot).isEmpty then
    .error "No fields found to export. Add fields before exporting."
  else .ok (exportFiles build snapshot)

/-! ## Decimal-numeral support

`Nat.repr` is the numeral printer behind the generated widget and field
names; the name-collision analysis needs its injectivity, proved here
through an explicit decimal spelling and its evaluator. -/

/-- The decimal spelling of a natural number, most significant digit
first. -/
def decChars (n : Nat) : List Char :=
  if _h : n < 10 then [Nat.digitChar n]
  else decChars (n / 10) ++ [Nat.digitChar (n % 10)]
decreasing_by
  exact Nat.div_lt_self (by omega) (by omega)

/-- Numeric value of a decimal digit character. -/
def digitVal (c : Char) : Nat := c.toNat - 48

/-- Evaluate a decimal spelling back to the number. -/
def decVal (l : List Char) : Nat :=
  l.foldl (fun a c => a * 10 + digitVal c) 0

/-! ## Concrete sample data

Pages, items, fields and archive entries used by the scenario theorems,
counterexamples and witnesses below. -/

/-- A page ingested at the application's fixed scale 1.25: US-Letter
612×792 content units, 765×990 display units. -/
def scanPage : PageMeta :=
  { index := 0, width := 765, height := 990
    originalWidth := 612, originalHeight := 792, scale := 5/4 }

/-- A text item holding two underscore runs, of lengths 10 and 4. -/
def scanItem : TextItem :=
  { str := "Name: __________ Date: ____", width := 200
    baseX := 50, baseY := 700, fontScale := 10, rtl := false, glyph := none }

/-- A page at scale 1 (612×792 both ways). -/
def plainPage : PageMeta :=
  { index := 0, width := 612, height := 792
    originalWidth := 612, originalHeight := 792, scale := 1 }

/-- A narrow ten-underscore item: its measured run is only 10 display units
wide, so the detector's clamps decide the final size. -/
def narrowItem : TextItem :=
  { str := "__________", width := 10
    baseX := 100, baseY := 700, fontScale := 10, rtl := false, glyph := none }

/-- A manually placed field, as `handleAddFieldAt` creates it. -/
def manualField : Field :=
  { id := "m1", pageIndex := 0, x := 100, y := 100, width := 150, height := 24
    multiline := false, confidence := none, name := "page1_manual_1", placeholder := none }

/-- A detector candidate 5/3/0 display units away from `manualField`. -/
def nearCandidate : Field :=
  { id := "c1", pageIndex := 0, x := 105, y := 103, width := 150, height := 24
    multiline := false, confidence := some (3/5), name := "page1_field_1", placeholder := none }

/-- A document holding `manualField`, with that field selected (as after
`addField`). -/
def manualDoc : PdfDocumentRecord :=
  { id := "doc1", fileName := "form.pdf", documentData := []
    pages := [scanPage], fields := [manualField], selectedFieldId := some "m1" }

/-- A store holding only `manualDoc`. -/
def manualState : PdfState :=
  { documents := [manualDoc], activeDocumentId := some "doc1" }

/-- An empty ingested document. -/
def emptyDoc : PdfDocumentRecord :=
  { id := "d1", fileName := "blank.pdf", documentData := []
    pages := [scanPage], fields := [], selectedFieldId := none }

/-- Fields whose base names collide only after suffixing: `a`, `a_2`, `a`. -/
def collideFieldA : Field :=
  { id := "f1", pageIndex := 0, x := 10, y := 10, width := 150, height := 24
    multiline := false, confidence := none, name := "a", placeholder := none }

/-- Second collision-demo field, base name `a_2`. -/
def collideFieldA2 : Field :=
  { id := "f2", pageIndex := 0, x := 10, y := 60, width := 150, height := 24
    multiline := false, confidence := none, name := "a_2", placeholder := none }

/-- Third collision-demo field, base name `a` again. -/
def collideFieldA' : Field :=
  { id := "f3", pageIndex := 0, x := 10, y := 110, width := 150, height := 24
    multiline := false, confidence := none, name := "a", placeholder := none }

/-- A fixed timestamp for archive scenarios. -/
def zipDate : JsDate :=
  { year := 2024, month := 0, day := 15, hours := 12, minutes := 30, seconds := 42 }

/-- A second, different wall-clock instant. -/
def zipDate' : JsDate :=
  { year := 2031, month := 7, day := 2, hours := 3, minutes := 4, seconds := 5 }

/-- The spec's scenario entry: `{name: "a.pdf", data: [1,2,3]}`, pinned to
`zipDate`. -/
def zipEntryA : ZipEntry :=
  { name := "a.pdf", data := [1, 2, 3], date := some zipDate }

/-! # Theorems -/

/-! ## C3: the synthesizer's placement transform is invertible -/

/-- C3: for every field and owning page with positive scale, applying the
spec's inverse measurement to `buildFillablePdf`'s placement transform
reproduces the stored display-space rectangle exactly over `ℚ`. -/
theorem exportRect_roundtrip (pm : PageMeta) (f : Field) (hs : 0 < pm.scale) :
    measureBackRect pm (exportRect pm f) = (f.x, f.y, f.width, f.height) := by
  have h0 : pm.scale ≠ 0 := ne_of_gt hs
  simp only [exportRect, measureBackRect, Prod.mk.injEq]
  refine ⟨?_, ?_, ?_, ?_⟩ <;> (field_simp; try ring)

/-- Witness for C3 at the sample page (scale 5/4) and the manual field. -/
theorem exportRect_roundtrip_witness :
    (0 : ℚ) < scanPage.scale ∧
      measureBackRect scanPage (exportRect scanPage manualField) = (100, 100, 150, 24) :=
  ⟨by norm_num [scanPage], exportRect_roundtrip scanPage manualField (by norm_num [scanPage])⟩

/-! ## C10: document-targeting mutations are frame-preserving -/

theorem frame_of_updateDocument (s : PdfState) (documentId : String)
    (u : PdfDocumentRecord → PdfDocumentRecord) :
    FramePreserved s documentId { s with documents := updateDocument s.documents documentId u } := by
  refine ⟨rfl, by simp [updateDocument], ?_, ?_⟩
  · intro i d hget hne
    simp only [updateDocument, List.getElem?_map, hget, Option.map_some]
    simp [hne]
  · intro hall
    have hmap : updateDocument s.documents documentId u = s.documents := by
      unfold updateDocument
      conv_rhs => rw [← List.map_id s.documents]
      exact List.map_congr_left fun d hd => by simp [hall d hd]
    cases s
    simp_all

/-- C10: each of the six document-targeting store operations leaves every
other document unchanged in place, keeps the list's length and order and the
active id, and is a no-op on the whole state when no document matches. -/
theorem store_ops_frame (s : PdfState) (documentId : String) (field : Field)
    (fieldId : String) (updates : FieldPatch) (fields : List Field)
    (candidates : List Field) (fidOpt : Option String) :
    FramePreserved s documentId (addFieldOp documentId field s) ∧
      FramePreserved s documentId (updateFieldOp documentId fieldId updates s) ∧
      FramePreserved s documentId (removeFieldOp documentId fieldId s) ∧
      FramePreserved s documentId (setFieldsOp documentId fields s) ∧
      FramePreserved s documentId (mergeFieldsOp documentId candidates s) ∧
      FramePreserved s documentId (selectFieldOp documentId fidOpt s) :=
  ⟨frame_of_updateDocument s documentId _, frame_of_updateDocument s documentId _,
    frame_of_updateDocument s documentId _, frame_of_updateDocument s documentId _,
    frame_of_updateDocument s documentId _, frame_of_updateDocument s documentId _⟩

/-- Witness for C10: targeting an id no document carries is a no-op. -/
theorem store_ops_frame_witness :
    addFieldOp "other" nearCandidate manualState = manualState := by
  have h := (store_ops_frame manualState "other" nearCandidate "m1" {} [] [] none).1
  unfold FramePreserved at h
  exact h.2.2.2 (by decide)

/-! ## C9: export orchestration -/

theorem filterMap_if_eq {α β : Type} (p : α → Bool) (g : α → β) (l : List α) :
    (l.filterMap fun a => if p a then none else some (g a)) =
      (l.filter fun a => !p a).map g := by
  induction l with
  | nil => rfl
  | cons a l ih =>
    cases h : p a <;> simp [List.filterMap_cons, List.filter_cons, h, ih]

theorem exportFiles_eq (build : PdfDocumentRecord → List Nat)
    (l : List PdfDocumentRecord) :
    exportFiles build l =
      (l.filter fun d => !d.fields.isEmpty).map fun d => (derivedName d.fileName, build d) := by
  unfold exportFiles
  exact filterMap_if_eq (fun d => d.fields.isEmpty)
    (fun d => (derivedName d.fileName, build d)) l

/-- C9: the multi-document export includes exactly the documents with a
non-empty field set, each under its `-fillable.pdf` derived name; when every
document is field-less it reports the recoverable error and produces no
archive; and the single-document export rejects a field-less document with
an error instead of producing bytes. -/
theorem export_orchestration :
    (∀ (build : PdfDocumentRecord → List Nat) (snapshot : List PdfDocumentRecord),
        snapshot ≠ [] → (∀ d ∈ snapshot, d.fields = []) →
        handleExportAll build snapshot =
          .error "No fields found to export. Add fields before exporting.") ∧
    (∀ (build : PdfDocumentRecord → List Nat) (snapshot : List PdfDocumentRecord)
        (files : List (String × List Nat)),
        handleExportAll build snapshot = .ok files →
        files = (snapshot.filter fun d => !d.fields.isEmpty).map
          fun d => (derivedName d.fileName, build d)) ∧
    (∀ (build : PdfDocumentRecord → List Nat) (d : PdfDocumentRecord),
        d.fields = [] →
        handleExportCurrent build (some d) =
          .error "Nothing to export yet. Add fields first.") := by
  refine ⟨?_, ?_, ?_⟩
  · intro build snapshot hne hall
    have hempty : exportFiles build snapshot = [] := by
      rw [exportFiles, List.filterMap_eq_nil_iff]
      intro d hd
      simp [hall d hd]
    have h1 : snapshot.isEmpty = false := List.isEmpty_eq_false.mpr hne
    unfold handleExportAll
    rw [h1, hempty]
    rfl
  · intro build snapshot files hok
    unfold handleExportAll at hok
    split at hok
    · exact absurd hok (by simp)
    · split at hok
      · exact absurd hok (by simp)
      · rw [← Except.ok.inj hok, exportFiles_eq]
  · intro build d hd
    simp [handleExportCurrent, hd]

/-- Witness for C9: a snapshot holding only a field-less document is
rejected, and so is a field-less single-document export. -/
theorem export_orchestration_witness :
    handleExportAll (fun _ => []) [emptyDoc] =
        .error "No fields found to export. Add fields before exporting." ∧
      handleExportCurrent (fun _ => []) (some emptyDoc) =
        .error "Nothing to export yet. Add fields first." :=
  ⟨export_orchestration.1 (fun _ => []) [emptyDoc] (by decide) (by decide),
    export_orchestration.2.2 (fun _ => []) emptyDoc (by decide)⟩

/-! ## C2: the merge policy -/

theorem isDup_refl (c : Field) : isDup c c := by
  simp [isDup]

theorem mergeList_eq_append (cands existing : List Field) :
    mergeList existing cands = existing ++ mergeKeeps existing cands := by
  induction cands generalizing existing with
  | nil => simp [mergeList, mergeKeeps]
  | cons c cs ih =>
    by_cases h : ∃ e ∈ existing, isDup e c
    · rw [mergeList, mergeKeeps, if_pos h, if_pos h, ih]
    · rw [mergeList, mergeKeeps, if_neg h, if_neg h, ih (existing ++ [c])]
      simp

theorem mergeList_sub (cands existing : List Field) :
    ∀ e ∈ existing, e ∈ mergeList existing cands := by
  intro e he
  rw [mergeList_eq_append]
  exact List.mem_append_left _ he

theorem mergeList_dup_mem (cands existing : List Field) :
    ∀ c ∈ cands, ∃ e ∈ mergeList existing cands, isDup e c := by
  induction cands generalizing existing with
  | nil => intro c hc; cases hc
  | cons c cs ih =>
    intro c' hc'
    by_cases h : ∃ e ∈ existing, isDup e c
    · rw [mergeList, if_pos h]
      rcases List.mem_cons.mp hc' with hc' | hc'
      · obtain ⟨e, he, hd⟩ := h
        exact ⟨e, mergeList_sub cs existing e he, hc' ▸ hd⟩
      · exact ih existing c' hc'
    · rw [mergeList, if_neg h]
      rcases List.mem_cons.mp hc' with hc' | hc'
      · refine ⟨c, ?_, hc' ▸ isDup_refl c⟩
        exact mergeList_sub cs (existing ++ [c]) c (by simp)
      · exact ih (existing ++ [c]) c' hc'

theorem mergeList_of_all_dup (cands existing : List Field)
    (h : ∀ c ∈ cands, ∃ e ∈ existing, isDup e c) :
    mergeList existing cands = existing := by
  induction cands with
  | nil => rfl
  | cons c cs ih =>
    rw [mergeList, if_pos (h c (by simp))]
    exact ih fun c' hc' => h c' (by simp [hc'])

theorem mergeList_idem (cands existing : List Field) :
    mergeList (mergeList existing cands) cands = mergeList existing cands :=
  mergeList_of_all_dup cands _ (mergeList_dup_mem cands existing)

theorem updateDocument_comp (documents : List PdfDocumentRecord) (id : String)
    (u v : PdfDocumentRecord → PdfDocumentRecord) (hu : ∀ d, (u d).id = d.id) :
    updateDocument (updateDocument documents id u) id v =
      updateDocument documents id (fun d => v (u d)) := by
  unfold updateDocument
  rw [List.map_map]
  refine List.map_congr_left fun d _ => ?_
  by_cases h : d.id = id <;> simp [h, hu]

unseal Rat.sub Rat.add Rat.mul Rat.inv Rat.ofScientific in
/-- C2: `mergeFields` appends, in candidate order, exactly the candidates
with no §4.2 duplicate among the pre-existing fields and the candidates
accepted earlier in the same pass; merging the near-duplicate candidate
`(105, 103, 150, 24)` into the store holding the manual field
`(100, 100, 150, 24)` on the same page leaves the store unchanged; and
merging the same candidate list twice equals merging it once. -/
theorem mergeFields_spec :
    (∀ existing cands : List Field,
        mergeList existing cands = existing ++ mergeKeeps existing cands) ∧
      mergeFieldsOp "doc1" [nearCandidate] manualState = manualState ∧
      (∀ (s : PdfState) (documentId : String) (cands : List Field),
        mergeFieldsOp documentId cands (mergeFieldsOp documentId cands s) =
          mergeFieldsOp documentId cands s) := by
  refine ⟨fun existing cands => mergeList_eq_append cands existing, by decide, ?_⟩
  intro s documentId cands
  unfold mergeFieldsOp
  dsimp only
  rw [updateDocument_comp]
  · refine congrArg (fun ds => PdfState.mk ds s.activeDocumentId) ?_
    unfold updateDocument
    refine List.map_congr_left fun d _ => ?_
    by_cases h : d.id = documentId
    · simp only [h, if_true]
      rw [mergeList_idem]
    · simp only [h, if_false]
  · exact fun d => rfl

/-! ## C8: the selection invariant -/

theorem mem_updateDocument {docs : List PdfDocumentRecord} {id : String}
    {u : PdfDocumentRecord → PdfDocumentRecord} {d' : PdfDocumentRecord}
    (h : d' ∈ updateDocument docs id u) :
    ∃ d ∈ docs, d' = if d.id = id then u d else d := by
  unfold updateDocument at h
  obtain ⟨d, hd, he⟩ := List.mem_map.mp h
  exact ⟨d, hd, he.symm⟩

theorem selectedOkDoc_fields_selected (d : PdfDocumentRecord) (fields : List Field)
    (h : ∀ fid, (fields.getLast?.map (·.id)) = some fid → ∃ f ∈ fields, f.id = fid) :
    SelectedOkDoc { d with fields := fields, selectedFieldId := fields.getLast?.map (·.id) } := by
  unfold SelectedOkDoc
  cases hl : fields.getLast?.map (·.id) with
  | none => trivial
  | some fid =>
    obtain ⟨f, hf, hid⟩ := h fid hl
    exact List.mem_map.mpr ⟨f, hf, hid⟩

theorem getLast_selected_ok (fields : List Field) (fid : String)
    (h : fields.getLast?.map (·.id) = some fid) : ∃ f ∈ fields, f.id = fid := by
  cases hg : fields.getLast? with
  | none => rw [hg] at h; cases h
  | some f =>
    rw [hg] at h
    obtain ⟨ys, hys⟩ := List.getLast?_eq_some_iff.mp hg
    exact ⟨f, by rw [hys]; simp, by simpa using h⟩

theorem selected_inv_step (s : PdfState) (op : StoreOp)
    (hs : SelectedInv s) (hg : GoodOp s op) : SelectedInv (applyOp s op) := by
  cases op with
  | addDocument entry =>
    intro d hd
    rcases List.mem_append.mp hd with hd | hd
    · exact hs d hd
    · rcases List.mem_singleton.mp hd with rfl
      exact hg
  | removeDocument id =>
    intro d hd
    exact hs d (List.mem_of_mem_filter hd)
  | clearAll =>
    intro d hd
    cases hd
  | setActiveDocument id =>
    intro d hd
    exact hs d hd
  | addField documentId field =>
    intro d' hd'
    obtain ⟨d, hd, heq⟩ := mem_updateDocument hd'
    by_cases h : d.id = documentId
    · subst heq
      rw [if_pos h]
      unfold SelectedOkDoc
      simp
    · rw [heq, if_neg h]
      exact hs d hd
  | updateField documentId fieldId updates =>
    intro d' hd'
    obtain ⟨d, hd, heq⟩ := mem_updateDocument hd'
    by_cases h : d.id = documentId
    · subst heq
      rw [if_pos h]
      have hgid : updates.id = none := hg
      have hids : ((d.fields.map fun f =>
          if f.id = fieldId then applyPatch f updates else f).map (·.id)) =
          d.fields.map (·.id) := by
        rw [List.map_map]
        refine List.map_congr_left fun f _ => ?_
        by_cases hf : f.id = fieldId
        · simp [hf, applyPatch, hgid]
        · simp [hf]
      have := hs d hd
      unfold SelectedOkDoc at this ⊢
      cases hsel : d.selectedFieldId with
      | none => trivial
      | some fid =>
        rw [hsel] at this
        simpa [hids] using this
    · rw [heq, if_neg h]
      exact hs d hd
  | removeField documentId fieldId =>
    intro d' hd'
    obtain ⟨d, hd, heq⟩ := mem_updateDocument hd'
    by_cases h : d.id = documentId
    · subst heq
      rw [if_pos h]
      have := hs d hd
      unfold SelectedOkDoc at this ⊢
      cases hsel : d.selectedFieldId with
      | none => simp [hsel]
      | some fid =>
        by_cases hf : fid = fieldId
        · simp [hsel, hf]
        · rw [hsel] at this
          obtain ⟨f, hfm, hfid⟩ := List.mem_map.mp this
          have hfilter : f ∈ d.fields.filter fun f0 => f0.id ≠ fieldId :=
            List.mem_filter.mpr ⟨hfm, by simp [hfid, hf]⟩
          rw [if_neg (by simpa using hf)]
          simpa using List.mem_map.mpr ⟨f, hfilter, hfid⟩
    · rw [heq, if_neg h]
      exact hs d hd
  | setFields documentId fields =>
    intro d' hd'
    obtain ⟨d, hd, heq⟩ := mem_updateDocument hd'
    by_cases h : d.id = documentId
    · subst heq
      rw [if_pos h]
      exact selectedOkDoc_fields_selected d fields (getLast_selected_ok fields)
    · rw [heq, if_neg h]
      exact hs d hd
  | mergeFields documentId candidates =>
    intro d' hd'
    obtain ⟨d, hd, heq⟩ := mem_updateDocument hd'
    by_cases h : d.id = documentId
    · subst heq
      rw [if_pos h]
      exact selectedOkDoc_fields_selected d (mergeList d.fields candidates)
        (getLast_selected_ok _)
    · rw [heq, if_neg h]
      exact hs d hd
  | selectField documentId fieldId =>
    intro d' hd'
    obtain ⟨d, hd, heq⟩ := mem_updateDocument hd'
    by_cases h : d.id = documentId
    · subst heq
      rw [if_pos h]
      unfold SelectedOkDoc
      cases fieldId with
      | none => trivial
      | some fid => exact hg d hd h
    · rw [heq, if_neg h]
      exact hs d hd

theorem selected_inv_run (ops : List StoreOp) :
    ∀ s : PdfState, SelectedInv s → ValidRun s ops → SelectedInv (runOps s ops) := by
  induction ops with
  | nil => intro s hs _; exact hs
  | cons op ops ih =>
    intro s hs hv
    exact ih (applyOp s op) (selected_inv_step s op hs hv.1) hv.2

/-- C8 (amended): along any run from the empty store whose operations
respect `GoodOp` — added documents already satisfy the invariant,
`updateField` patches leave ids alone, and `selectField` only receives ids
of fields present in the targeted document — every document's
`selectedFieldId` is absent or references one of that document's fields.
With fully arbitrary arguments the invariant fails (see the
counterexample). -/
theorem selected_inv_reachable (ops : List StoreOp)
    (h : ValidRun initialState ops) : SelectedInv (runOps initialState ops) :=
  selected_inv_run ops initialState (fun _ hd => by cases hd) h

/-- Counterexample to C8 as stated: from the empty store, add an empty
document and `selectField` it to a ghost id; the stored selection
references no field. -/
theorem selected_inv_counterexample :
    ¬ SelectedInv (runOps initialState
      [.addDocument emptyDoc, .selectField "d1" (some "ghost")]) := by
  decide

/-- Witness for C8 (amended): a valid two-operation run keeps the
invariant. -/
theorem selected_inv_reachable_witness :
    SelectedInv (runOps initialState
      [.addDocument emptyDoc, .selectField "d1" none]) :=
  selected_inv_reachable [.addDocument emptyDoc, .selectField "d1" none]
    ⟨(by decide : SelectedOkDoc emptyDoc), trivial, trivial⟩

/-! ## C4 and C5: the archive serializer -/

theorem localChunk_length (now : JsDate) (e : ZipEntry) :
    (localChunk now e).length = localSize e := by
  simp [localChunk, le16, le32, localSize]
  omega

theorem centralChunk_length (now : JsDate) (e : ZipEntry) (off : Nat) :
    (centralChunk now e off).length = centralSize e := by
  simp [centralChunk, le16, le32, centralSize]
  omega

theorem eocdChunk_length (files : List ZipEntry) : (eocdChunk files).length = 22 := by
  simp [eocdChunk, le16, le32]

theorem centralChunks_map_length (now : JsDate) :
    ∀ (files : List ZipEntry) (off : Nat),
      (centralChunks now files off).map List.length = files.map centralSize
  | [], _ => rfl
  | e :: es, off => by
    simp only [centralChunks, List.map_cons, centralChunk_length,
      centralChunks_map_length now es]

theorem centralChunks_getElem? (now : JsDate) :
    ∀ (files : List ZipEntry) (off i : Nat),
      (centralChunks now files off)[i]? =
        files[i]?.map fun e => centralChunk now e (off + localOffsetAt files i)
  | [], _, i => by simp [centralChunks]
  | e :: es, off, 0 => by simp [centralChunks, localOffsetAt]
  | e :: es, off, i + 1 => by
    simp only [centralChunks, List.getElem?_cons_succ,
      centralChunks_getElem? now es (off + localSize e) i]
    have harith : off + localSize e + localOffsetAt es i =
        off + localOffsetAt (e :: es) (i + 1) := by
      simp [localOffsetAt, List.take_succ_cons]
      omega
    rw [harith]

theorem flatten_drop_at {α : Type} :
    ∀ (L : List (List α)) (i : Nat) (h : i < L.length) (tail : List α),
      (L.flatten ++ tail).drop (((L.take i).map List.length).sum) =
        L[i] ++ ((L.drop (i + 1)).flatten ++ tail)
  | [], i, h, _ => absurd h (by simp)
  | a :: L, 0, _, tail => by simp
  | a :: L, i + 1, h, tail => by
    have h' : i < L.length := by simpa using h
    calc ((a :: L).flatten ++ tail).drop ((((a :: L).take (i + 1)).map List.length).sum)
        = (a ++ (L.flatten ++ tail)).drop (a.length + ((L.take i).map List.length).sum) := by
          simp [List.take_succ_cons]
      _ = (L.flatten ++ tail).drop (((L.take i).map List.length).sum) := List.drop_append _
      _ = L[i] ++ ((L.drop (i + 1)).flatten ++ tail) := flatten_drop_at L i h' tail

theorem localChunk_crc (now : JsDate) (e : ZipEntry) (rest : List Nat) :
    ((localChunk now e ++ rest).drop 14).take 4 = le32 (computeCrc32 e.data) := by
  simp [localChunk, le16, le32]

theorem centralChunk_crc (now : JsDate) (e : ZipEntry) (off : Nat) (rest : List Nat) :
    ((centralChunk now e off ++ rest).drop 16).take 4 = le32 (computeCrc32 e.data) := by
  simp [centralChunk, le16, le32]

theorem entryDos_of_isSome (now1 now2 : JsDate) (e : ZipEntry) (h : e.date.isSome) :
    entryDos now1 e = entryDos now2 e := by
  unfold entryDos
  obtain ⟨d, hd⟩ := Option.isSome_iff_exists.mp h
  rw [hd]
  rfl

theorem localChunk_of_isSome (now1 now2 : JsDate) (e : ZipEntry) (h : e.date.isSome) :
    localChunk now1 e = localChunk now2 e := by
  unfold localChunk
  rw [entryDos_of_isSome now1 now2 e h]

theorem centralChunks_of_isSome (now1 now2 : JsDate) :
    ∀ (files : List ZipEntry) (off : Nat), (∀ e ∈ files, e.date.isSome) →
      centralChunks now1 files off = centralChunks now2 files off
  | [], _, _ => rfl
  | e :: es, off, h => by
    unfold centralChunks centralChunk
    rw [entryDos_of_isSome now1 now2 e (h e (by simp)),
      centralChunks_of_isSome now1 now2 es (off + localSize e) fun e' he' => h e' (by simp [he'])]

theorem localOffsetAt_eq (now : JsDate) (files : List ZipEntry) (i : Nat) :
    (((files.map (localChunk now)).take i).map List.length).sum = localOffsetAt files i := by
  unfold localOffsetAt
  rw [← List.map_take, List.map_map]
  exact congrArg List.sum (List.map_congr_left fun e _ => localChunk_length now e)

theorem locals_flatten_length (now : JsDate) (files : List ZipEntry) :
    (files.map (localChunk now)).flatten.length = (files.map localSize).sum := by
  rw [List.length_flatten, List.map_map]
  exact congrArg List.sum (List.map_congr_left fun e _ => localChunk_length now e)

theorem centrals_flatten_length (now : JsDate) (files : List ZipEntry) (off : Nat) :
    (centralChunks now files off).flatten.length = (files.map centralSize).sum := by
  rw [List.length_flatten, centralChunks_map_length]

/-- C4: the serializer is a function of the entry list alone whenever every
entry carries a date (the wall clock enters only through date-less
entries), and the four CRC-32 bytes stored at offset 14 of each entry's
local header and offset 16 of its central-directory record are exactly the
little-endian `computeCrc32` of that entry's raw bytes. -/
theorem createZip_deterministic_crc :
    (∀ (now1 now2 : JsDate) (files : List ZipEntry), (∀ e ∈ files, e.date.isSome) →
        createZipFromFiles now1 files = createZipFromFiles now2 files) ∧
      (∀ (now : JsDate) (files : List ZipEntry) (i : Nat) (h : i < files.length),
        ((createZipFromFiles now files).drop (localOffsetAt files i + 14)).take 4 =
            le32 (computeCrc32 files[i].data) ∧
          ((createZipFromFiles now files).drop (centralOffsetAt files i + 16)).take 4 =
            le32 (computeCrc32 files[i].data)) := by
  constructor
  · intro now1 now2 files h
    unfold createZipFromFiles
    rw [centralChunks_of_isSome now1 now2 files 0 h,
      List.map_congr_left fun e he => localChunk_of_isSome now1 now2 e (h e he)]
  · intro now files i h
    have hzip : createZipFromFiles now files =
        (files.map (localChunk now)).flatten ++
          ((centralChunks now files 0).flatten ++ eocdChunk files) := by
      rw [createZipFromFiles, List.append_assoc]
    constructor
    · have hlen : i < (files.map (localChunk now)).length := by simpa using h
      rw [hzip, ← List.drop_drop, ← localOffsetAt_eq now files i,
        flatten_drop_at (files.map (localChunk now)) i hlen]
      rw [List.getElem_map]
      exact localChunk_crc now files[i] _
    · have hBlen : i < (centralChunks now files 0).length := by
        have := congrArg List.length (centralChunks_map_length now files 0)
        simpa using lt_of_lt_of_le h (by simp at this ⊢; omega)
      have htake : ((centralChunks now files 0).take i).map List.length =
          (files.take i).map centralSize := by
        rw [List.map_take, centralChunks_map_length, ← List.map_take]
      have hoff : centralOffsetAt files i + 16 =
          (files.map (localChunk now)).flatten.length +
            ((((centralChunks now files 0).take i).map List.length).sum + 16) := by
        rw [locals_flatten_length, centralOffsetAt, htake]
        omega
      rw [hzip, hoff, List.drop_append, ← List.drop_drop,
        flatten_drop_at (centralChunks now files 0) i hBlen]
      have hB : (centralChunks now files 0)[i] =
          centralChunk now files[i] (0 + localOffsetAt files i) := by
        have h? := centralChunks_getElem? now files 0 i
        rw [List.getElem?_eq_getElem hBlen, List.getElem?_eq_getElem h] at h?
        exact Option.some.inj h?
      rw [hB]
      exact centralChunk_crc now files[i] _ _

/-- Witness for C4: two different wall-clock instants produce the identical
blob for the dated scenario entry, whose stored CRC bytes both equal
`computeCrc32 [1,2,3]`. -/
theorem createZip_deterministic_crc_witness :
    createZipFromFiles zipDate' [zipEntryA] = createZipFromFiles zipDate [zipEntryA] ∧
      ((createZipFromFiles zipDate' [zipEntryA]).drop
          (localOffsetAt [zipEntryA] 0 + 14)).take 4 = le32 (computeCrc32 zipEntryA.data) ∧
      ((createZipFromFiles zipDate' [zipEntryA]).drop
          (centralOffsetAt [zipEntryA] 0 + 16)).take 4 = le32 (computeCrc32 zipEntryA.data) :=
  ⟨createZip_deterministic_crc.1 zipDate' zipDate [zipEntryA] (by decide),
    (createZip_deterministic_crc.2 zipDate' [zipEntryA] 0 (by decide)).1,
    (createZip_deterministic_crc.2 zipDate' [zipEntryA] 0 (by decide)).2⟩

/-- C5: the blob's size is the sum of the per-entry local sections
(30 + filename + data bytes), the per-entry central records
(46 + filename bytes) and the 22-byte end record; the end record stores the
entry count in both of its count fields; and the single-entry `a.pdf` /
3-byte scenario yields exactly 111 bytes reporting 1 entry. -/
theorem createZip_layout :
    (∀ (now : JsDate) (files : List ZipEntry),
        (createZipFromFiles now files).length =
          (files.map fun e => 30 + (encodeName e.name).length + e.data.length).sum +
            (files.map fun e => 46 + (encodeName e.name).length).sum + 22) ∧
      (∀ (now : JsDate) (files : List ZipEntry),
        ((createZipFromFiles now files).drop
            ((files.map localSize).sum + (files.map centralSize).sum + 8)).take 2 =
            le16 files.length ∧
          ((createZipFromFiles now files).drop
            ((files.map localSize).sum + (files.map centralSize).sum + 10)).take 2 =
            le16 files.length) ∧
      ((createZipFromFiles zipDate' [zipEntryA]).length = 111 ∧
        ((createZipFromFiles zipDate' [zipEntryA]).drop 97).take 2 = le16 1 ∧
        ((createZipFromFiles zipDate' [zipEntryA]).drop 99).take 2 = le16 1) := by
  refine ⟨?_, ?_, by decide, by decide, by decide⟩
  · intro now files
    rw [createZipFromFiles]
    simp only [List.length_append, locals_flatten_length, centrals_flatten_length,
      eocdChunk_length]
    rfl
  · intro now files
    have hpre : ((files.map (localChunk now)).flatten ++
        (centralChunks now files 0).flatten).length =
        (files.map localSize).sum + (files.map centralSize).sum := by
      rw [List.length_append, locals_flatten_length, centrals_flatten_length]
    have hzip : createZipFromFiles now files =
        ((files.map (localChunk now)).flatten ++ (centralChunks now files 0).flatten) ++
          eocdChunk files := by
      rw [createZipFromFiles, List.append_assoc]
    constructor
    · rw [hzip, show (files.map localSize).sum + (files.map centralSize).sum + 8 =
          ((files.map (localChunk now)).flatten ++
            (centralChunks now files 0).flatten).length + 8 by rw [hpre],
        List.drop_append]
      rfl
    · rw [hzip, show (files.map localSize).sum + (files.map centralSize).sum + 10 =
          ((files.map (localChunk now)).flatten ++
            (centralChunks now files 0).flatten).length + 10 by rw [hpre],
        List.drop_append]
      rfl

/-! ## C7: run extraction and sequential naming -/

theorem length_filterMap_le_filter {α β : Type} (g : α → Option β) (p : α → Bool)
    (hgp : ∀ a, (g a).isSome → p a) (l : List α) :
    (l.filterMap g).length ≤ (l.filter p).length := by
  induction l with
  | nil => exact Nat.le_refl 0
  | cons a l ih =>
    cases hg : g a with
    | none =>
      rw [List.filterMap_cons, hg]
      cases hp : p a
      · simpa [List.filter_cons, hp] using ih
      · rw [List.filter_cons, hp]
        exact ih.trans (by simp)
    | some b =>
      have hp : p a = true := hgp a (by simp [hg])
      rw [List.filterMap_cons, hg, List.filter_cons, hp]
      simpa using ih

theorem processRun_isSome_min (pm : PageMeta) (item : TextItem) (s len : Nat)
    (h : (processRun pm item s len).isSome) : MIN_UNDERSCORE_RUN ≤ len := by
  by_contra hlt
  rw [processRun, if_pos (by omega)] at h
  cases h

unseal Rat.sub Rat.add Rat.mul Rat.inv Rat.ofScientific in
/-- C7: detector fields on a page are named `page{N}_field_{K}` with `K`
1-based and sequential in production order; a page never yields more fields
than its text items hold maximal underscore runs of length at least
`MIN_UNDERSCORE_RUN` (8) — shorter runs never produce a field; and the
scenario page whose single item carries runs of lengths 10 and 4 yields
exactly one field, named `page1_field_1`. -/
theorem detector_run_naming :
    (∀ (pm : PageMeta) (items : List TextItem),
        (detectFieldsForPage pm items).map (·.name) =
          (List.range (detectFieldsForPage pm items).length).map
            fun k => fieldNameStr pm.index (k + 1)) ∧
      (∀ (pm : PageMeta) (items : List TextItem),
        (detectFieldsForPage pm items).length ≤
          (items.map fun item =>
            ((underscoreRuns item.str.data).filter
              fun r => MIN_UNDERSCORE_RUN ≤ r.2).length).sum) ∧
      (detectFieldsForPage scanPage [scanItem]).map (·.name) = ["page1_field_1"] := by
  refine ⟨?_, ?_, ?_⟩
  · intro pm items
    unfold detectFieldsForPage
    rw [List.map_map, List.length_map, List.enum_length,
      show ((fun f : Field => f.name) ∘ fun p => mkDetectedField pm p.1 p.2) =
        ((fun k => fieldNameStr pm.index (k + 1)) ∘ Prod.fst) from rfl,
      ← List.map_map, List.enum_map_fst]
  · intro pm items
    unfold detectFieldsForPage
    rw [List.length_map, List.enum_length, pageRects, List.length_flatMap]
    refine List.sum_le_sum fun item _ => ?_
    exact length_filterMap_le_filter _ _
      (fun r h => by simpa using processRun_isSome_min pm item r.1 r.2 h) _
  · decide

/-! ## C1: invariants of detector-produced fields -/

theorem clampSize_bounds (value min' available : ℚ) (h0 : 0 < available) :
    min min' available ≤ clampSize value min' available ∧
      clampSize value min' available ≤ available := by
  unfold clampSize
  rw [if_pos h0]
  exact ⟨le_min (le_max_right _ _) (min_le_right _ _), min_le_right _ _⟩

theorem heightClamped_bounds (pm : PageMeta) (y1 y2 fh : ℚ) (hH : 0 < pm.height) :
    min DETECT_MIN_FIELD_HEIGHT pm.height ≤ heightClamped pm y1 y2 fh ∧
      heightClamped pm y1 y2 fh ≤ pm.height := by
  obtain ⟨hlo, hhi⟩ := clampSize_bounds (rawHeightOf pm y1 y2 fh) DETECT_MIN_FIELD_HEIGHT
    pm.height hH
  unfold heightClamped
  constructor
  · refine le_min hlo ((min_le_left _ _).trans ?_)
    norm_num [DETECT_MIN_FIELD_HEIGHT]
  · exact (min_le_left _ _).trans hhi

theorem yClamped_bounds (pm : PageMeta) (y1 y2 fh : ℚ) (hH : 0 < pm.height) :
    0 ≤ yClamped pm y1 y2 fh ∧
      yClamped pm y1 y2 fh + heightClamped pm y1 y2 fh ≤ pm.height := by
  have hhi : heightClamped pm y1 y2 fh ≤ pm.height := (heightClamped_bounds pm y1 y2 fh hH).2
  unfold yClamped
  rw [if_pos (show (FIELD_VERTICAL_OFFSET : ℚ) ≠ 0 by norm_num [FIELD_VERTICAL_OFFSET])]
  constructor
  · exact le_min (le_max_right _ _) (le_max_right _ _)
  · refine le_trans (add_le_add_right (min_le_right _ _) _) ?_
    have h2 : max (pm.height - heightClamped pm y1 y2 fh) 0 =
        pm.height - heightClamped pm y1 y2 fh := max_eq_left (by linarith)
    rw [h2]
    linarith

theorem widthClamped_bounds (pm : PageMeta) (x1 x2 : ℚ)
    (hxw : min x1 x2 + DETECT_MIN_FIELD_WIDTH ≤ pm.width) :
    DETECT_MIN_FIELD_WIDTH ≤ widthClamped pm x1 x2 ∧
      widthClamped pm x1 x2 ≤ pm.width - min x1 x2 := by
  have hmin : (0 : ℚ) < DETECT_MIN_FIELD_WIDTH := by norm_num [DETECT_MIN_FIELD_WIDTH]
  have hA : DETECT_MIN_FIELD_WIDTH ≤ pm.width - min x1 x2 := by linarith
  have hA0 : (0 : ℚ) < pm.width - min x1 x2 := by linarith
  obtain ⟨hlo, hhi⟩ := clampSize_bounds (rawWidthOf x1 x2) DETECT_MIN_FIELD_WIDTH
    (pm.width - min x1 x2) hA0
  rw [min_eq_left hA] at hlo
  unfold widthClamped
  dsimp only
  split_ifs
  all_goals first
    | exact ⟨le_min (le_max_left _ _) hA, min_le_right _ _⟩
    | exact ⟨hlo, hhi⟩

theorem widthFinal_bounds (pm : PageMeta) (x1 x2 : ℚ) (hx0 : 0 ≤ min x1 x2)
    (hxw : min x1 x2 + DETECT_MIN_FIELD_WIDTH ≤ pm.width) :
    DETECT_MIN_FIELD_WIDTH ≤ widthFinal pm x1 x2 ∧
      xFinal x1 x2 + widthFinal pm x1 x2 ≤ pm.width := by
  obtain ⟨hlo, hhi⟩ := widthClamped_bounds pm x1 x2 hxw
  have hxf : xFinal x1 x2 = min x1 x2 := max_eq_left hx0
  have hno : ¬ pm.width < xFinal x1 x2 + widthClamped pm x1 x2 := by
    rw [hxf]
    linarith
  unfold widthFinal
  rw [if_neg hno, hxf]
  exact ⟨hlo, by linarith⟩

theorem processRun_eq_clamp (pm : PageMeta) (item : TextItem) (s len : Nat)
    (g : ℚ × ℚ × ℚ × ℚ) (h : processRun pm item s len = some g) :
    ∃ x1 y1 x2 y2 fh : ℚ, g = clampRunRect pm x1 y1 x2 y2 fh := by
  rw [processRun] at h
  dsimp only at h
  split_ifs at h
  all_goals first
    | exact Option.noConfusion h
    | exact ⟨_, _, _, _, _, (Option.some.inj h).symm⟩

theorem detect_mem_shape (pm : PageMeta) (items : List TextItem) (f : Field)
    (hf : f ∈ detectFieldsForPage pm items) :
    f.confidence = some (3/5) ∧ f.pageIndex = pm.index ∧
      ∃ x1 y1 x2 y2 fh : ℚ,
        f.x = (clampRunRect pm x1 y1 x2 y2 fh).1 ∧
        f.y = (clampRunRect pm x1 y1 x2 y2 fh).2.1 ∧
        f.width = (clampRunRect pm x1 y1 x2 y2 fh).2.2.1 ∧
        f.height = (clampRunRect pm x1 y1 x2 y2 fh).2.2.2 := by
  unfold detectFieldsForPage at hf
  obtain ⟨p, hp, hfe⟩ := List.mem_map.mp hf
  have hg : p.2 ∈ pageRects pm items := List.snd_mem_of_mem_enum hp
  unfold pageRects at hg
  obtain ⟨item, _, hg⟩ := List.mem_flatMap.mp hg
  obtain ⟨r, _, hr⟩ := List.mem_filterMap.mp hg
  obtain ⟨x1, y1, x2, y2, fh, hclamp⟩ := processRun_eq_clamp pm item r.1 r.2 p.2 hr
  subst hfe
  refine ⟨rfl, rfl, x1, y1, x2, y2, fh, ?_, ?_, ?_, ?_⟩ <;> (rw [← hclamp]; rfl)

/-- C1 (amended): every field the detector produces on a page with positive
dimensions carries `confidence = 0.6`, that page's index, a nonnegative
top-left corner, and a vertical extent inside the page with
`height ≥ min(MIN_FIELD_HEIGHT, page.height)` — for the detection module's
own minima `MIN_FIELD_WIDTH = 20` and `MIN_FIELD_HEIGHT = 14`, not the
editor's 80/22; and the clamping stage satisfies all the §3 rectangle
invariants (including the width ones) whenever the page is at least
`MIN_FIELD_HEIGHT` tall and the run's converted left edge lies inside the
page with `MIN_FIELD_WIDTH` of room before the right edge. -/
theorem detector_field_invariants :
    (∀ (pm : PageMeta) (items : List TextItem), 0 < pm.width → 0 < pm.height →
      ∀ f ∈ detectFieldsForPage pm items,
        f.confidence = some (3/5) ∧ f.pageIndex = pm.index ∧ 0 ≤ f.x ∧ 0 ≤ f.y ∧
          f.y + f.height ≤ pm.height ∧
          min DETECT_MIN_FIELD_HEIGHT pm.height ≤ f.height) ∧
      (∀ (pm : PageMeta) (x1 y1 x2 y2 fh : ℚ),
        DETECT_MIN_FIELD_HEIGHT ≤ pm.height → 0 ≤ min x1 x2 →
        min x1 x2 + DETECT_MIN_FIELD_WIDTH ≤ pm.width →
          0 ≤ (clampRunRect pm x1 y1 x2 y2 fh).1 ∧
          0 ≤ (clampRunRect pm x1 y1 x2 y2 fh).2.1 ∧
          DETECT_MIN_FIELD_WIDTH ≤ (clampRunRect pm x1 y1 x2 y2 fh).2.2.1 ∧
          DETECT_MIN_FIELD_HEIGHT ≤ (clampRunRect pm x1 y1 x2 y2 fh).2.2.2 ∧
          (clampRunRect pm x1 y1 x2 y2 fh).1 + (clampRunRect pm x1 y1 x2 y2 fh).2.2.1 ≤
            pm.width ∧
          (clampRunRect pm x1 y1 x2 y2 fh).2.1 + (clampRunRect pm x1 y1 x2 y2 fh).2.2.2 ≤
            pm.height) := by
  constructor
  · intro pm items _ hH f hf
    obtain ⟨hconf, hidx, x1, y1, x2, y2, fh, hx, hy, _, hh⟩ := detect_mem_shape pm items f hf
    refine ⟨hconf, hidx, ?_, ?_, ?_, ?_⟩
    · rw [hx]
      exact le_max_right _ _
    · rw [hy]
      exact (yClamped_bounds pm y1 y2 fh hH).1
    · rw [hy, hh]
      exact (yClamped_bounds pm y1 y2 fh hH).2
    · rw [hh]
      exact (heightClamped_bounds pm y1 y2 fh hH).1
  · intro pm x1 y1 x2 y2 fh hHmin hx0 hxw
    have hH : (0 : ℚ) < pm.height :=
      lt_of_lt_of_le (by norm_num [DETECT_MIN_FIELD_HEIGHT]) hHmin
    obtain ⟨hw1, hw2⟩ := widthFinal_bounds pm x1 x2 hx0 hxw
    obtain ⟨hy1, hy2⟩ := yClamped_bounds pm y1 y2 fh hH
    obtain ⟨hh1, hh2⟩ := heightClamped_bounds pm y1 y2 fh hH
    rw [min_eq_left hHmin] at hh1
    exact ⟨le_max_right _ _, hy1, hw1, hh1, hw2, hy2⟩

unseal Rat.sub Rat.add Rat.mul Rat.inv Rat.ofScientific in
/-- Counterexample to C1 as stated: on a positive page, the narrow
ten-underscore item yields a field of width 20 < 80 and height 14 < 22 —
the detection module's minima are 20/14, not the 80/22 the claim asserts. -/
theorem detector_field_invariants_counterexample :
    (0 : ℚ) < plainPage.width ∧ (0 : ℚ) < plainPage.height ∧
      ∃ f ∈ detectFieldsForPage plainPage [narrowItem],
        f.width < 80 ∧ f.height < 22 := by
  decide

unseal Rat.sub Rat.add Rat.mul Rat.inv Rat.ofScientific in
/-- Witness for C1 (amended) at the scenario page and at concrete clamp
inputs. -/
theorem detector_field_invariants_witness :
    ((0 : ℚ) < scanPage.width ∧ (0 : ℚ) < scanPage.height ∧
      ∀ f ∈ detectFieldsForPage scanPage [scanItem],
        f.confidence = some (3/5) ∧ f.pageIndex = scanPage.index ∧ 0 ≤ f.x ∧ 0 ≤ f.y ∧
          f.y + f.height ≤ scanPage.height ∧
          min DETECT_MIN_FIELD_HEIGHT scanPage.height ≤ f.height) ∧
      (DETECT_MIN_FIELD_HEIGHT ≤ plainPage.height ∧ (0 : ℚ) ≤ min 100 110 ∧
        min 100 110 + DETECT_MIN_FIELD_WIDTH ≤ plainPage.width ∧
        DETECT_MIN_FIELD_WIDTH ≤ (clampRunRect plainPage 100 98 110 90 10).2.2.1 ∧
        (clampRunRect plainPage 100 98 110 90 10).1 +
          (clampRunRect plainPage 100 98 110 90 10).2.2.1 ≤ plainPage.width) :=
  ⟨⟨by decide, by decide,
      detector_field_invariants.1 scanPage [scanItem] (by decide) (by decide)⟩,
    by decide, by decide, by decide,
    (detector_field_invariants.2 plainPage 100 98 110 90 10
      (by decide) (by decide) (by decide)).2.2.1,
    (detector_field_invariants.2 plainPage 100 98 110 90 10
      (by decide) (by decide) (by decide)).2.2.2.2.1⟩

/-! ## C6: widget-name collision policy -/

theorem toDigitsCore_eq_decChars :
    ∀ (fuel n : Nat) (acc : List Char), n < fuel →
      Nat.toDigitsCore 10 fuel n acc = decChars n ++ acc := by
  intro fuel
  induction fuel with
  | zero => intro n acc h; omega
  | succ f ih =>
    intro n acc h
    rw [Nat.toDigitsCore]
    by_cases h10 : n < 10
    · rw [if_pos (Nat.div_eq_of_lt h10), decChars, dif_pos h10, Nat.mod_eq_of_lt h10]
      rfl
    · rw [if_neg (by omega), ih (n / 10) _
        (lt_of_lt_of_le (Nat.div_lt_self (by omega) (by omega)) (by omega))]
      conv_rhs => rw [decChars]
      rw [dif_neg h10]
      simp [List.append_assoc]

theorem repr_eq_decChars (n : Nat) : Nat.repr n = (decChars n).asString := by
  rw [Nat.repr, Nat.toDigits,
    toDigitsCore_eq_decChars (n + 1) n [] (Nat.lt_succ_self n), List.append_nil]

theorem digitVal_digitChar (n : Nat) (h : n < 10) : digitVal (Nat.digitChar n) = n := by
  interval_cases n <;> decide

theorem decVal_append (l : List Char) (c : Char) :
    decVal (l ++ [c]) = decVal l * 10 + digitVal c := by
  unfold decVal
  rw [List.foldl_append]
  rfl

theorem decVal_decChars (n : Nat) : decVal (decChars n) = n := by
  induction n using Nat.strong_induction_on with
  | _ n ih =>
    rw [decChars]
    split_ifs with h
    · show 0 * 10 + digitVal (Nat.digitChar n) = n
      rw [digitVal_digitChar n h]
      omega
    · rw [decVal_append, ih (n / 10) (Nat.div_lt_self (by omega) (by omega)),
        digitVal_digitChar _ (Nat.mod_lt n (by omega))]
      omega

theorem repr_injective (m n : Nat) (h : Nat.repr m = Nat.repr n) : m = n := by
  rw [repr_eq_decChars, repr_eq_decChars] at h
  have hdata : decChars m = decChars n := congrArg String.data h
  have := congrArg decVal hdata
  rwa [decVal_decChars, decVal_decChars] at this

theorem repr_length_pos (n : Nat) : 0 < (Nat.repr n).length := by
  rw [repr_eq_decChars]
  show 0 < (decChars n).length
  rw [decChars]
  split_ifs <;> simp

theorem specGen_inj (b : String) (k k' : Nat) (_hk : 1 ≤ k) (_hk' : 1 ≤ k')
    (h : specGen b k = specGen b k') : k = k' := by
  unfold specGen at h
  split_ifs at h with h1 h2 h2
  · omega
  · exfalso
    have hlen := congrArg String.length h
    rw [String.length_append, String.length_append] at hlen
    have := repr_length_pos k'
    omega
  · exfalso
    have hlen := congrArg String.length h
    rw [String.length_append, String.length_append] at hlen
    have := repr_length_pos k
    omega
  · have hd := congrArg String.data h
    simp only [String.data_append, List.append_assoc] at hd
    have hrepr : Nat.repr k = Nat.repr k' :=
      String.ext (List.append_cancel_left (List.append_cancel_left hd))
    exact repr_injective k k' hrepr

theorem synthNamesAux_spec (pages : List PageMeta) :
    ∀ (fields : List Field) (prev : List String) (usage : String → Nat),
      (∀ b, usage b = prev.count b) →
      synthNamesAux pages usage fields = specAssign prev (processedBases pages fields)
  | [], _, _, _ => rfl
  | f :: fs, prev, usage, husage => by
    rw [synthNamesAux]
    by_cases hpage : (pages[f.pageIndex]?).isNone
    · rw [if_pos hpage]
      have hproc : processedBases pages (f :: fs) = processedBases pages fs := by
        unfold processedBases
        rw [List.filter_cons]
        have : (pages[f.pageIndex]?).isSome = false := by
          simp only [Option.isNone_iff_eq_none] at hpage
          simp [hpage]
        simp [this]
      rw [hproc]
      exact synthNamesAux_spec pages fs prev usage husage
    · rw [if_neg hpage]
      dsimp only
      have hproc : processedBases pages (f :: fs) =
          baseNameOf f :: processedBases pages fs := by
        unfold processedBases
        rw [List.filter_cons]
        have : (pages[f.pageIndex]?).isSome = true := by
          simpa [Option.isSome_iff_ne_none, Option.isNone_iff_eq_none] using hpage
        simp [this]
      rw [hproc, specAssign]
      congr 1
      · rw [husage (baseNameOf f)]
        by_cases hc : prev.count (baseNameOf f) = 0 <;> simp [specGen, hc]
      · refine synthNamesAux_spec pages fs (prev ++ [baseNameOf f]) _ fun b => ?_
        by_cases hb : b = baseNameOf f
        · simp [hb, husage (baseNameOf f), List.count_append]
        · have hb' : ¬ baseNameOf f = b := fun he => hb he.symm
          simp [hb, husage b, List.count_append, List.count_singleton, hb']

theorem specAssign_getElem? :
    ∀ (bs prev : List String) (i : Nat),
      (specAssign prev bs)[i]? =
        (bs[i]?).map fun b => specGen b (prev.count b + (bs.take (i + 1)).count b)
  | [], prev, i => by simp [specAssign]
  | b :: bs, prev, 0 => by
    simp [specAssign, List.take_succ_cons, List.count_singleton]
  | b :: bs, prev, i + 1 => by
    rw [specAssign]
    simp only [List.getElem?_cons_succ]
    rw [specAssign_getElem? bs (prev ++ [b]) i]
    cases hbs : bs[i]? with
    | none => rfl
    | some b' =>
      simp only [Option.map_some', Option.some.injEq]
      have harith : (prev ++ [b]).count b' + (bs.take (i + 1)).count b' =
          prev.count b' + ((b :: bs).take (i + 1 + 1)).count b' := by
        rw [List.take_succ_cons, List.count_append, List.count_cons, List.count_cons]
        by_cases hb : b = b' <;> (simp [hb, beq_iff_eq]; try omega)
      rw [harith]

theorem specAssign_same_base_distinct (prev bs : List String) (i j : Nat)
    (hij : i < j) (hj : j < bs.length) (hb : bs[i]? = bs[j]?) :
    (specAssign prev bs)[i]? ≠ (specAssign prev bs)[j]? := by
  have hbj : bs[j]? = some (bs[j]) := List.getElem?_eq_getElem hj
  have hbi : bs[i]? = some (bs[j]) := hb.trans hbj
  rw [specAssign_getElem?, specAssign_getElem?, hbi, hbj]
  simp only [Option.map_some', ne_eq, Option.some.injEq]
  intro heq
  have hmi : bs[j] ∈ bs.take (i + 1) :=
    List.getElem?_mem (show (bs.take (i + 1))[i]? = some (bs[j]) by
      rw [List.getElem?_take_of_lt (Nat.lt_succ_self i)]
      exact hbi)
  have hci : 1 ≤ (bs.take (i + 1)).count (bs[j]) := List.one_le_count_iff.mpr hmi
  have hsplit : bs.take (j + 1) = bs.take (i + 1) ++ (bs.drop (i + 1)).take (j - i) := by
    rw [← List.take_add]
    congr 1
    omega
  have hmm : bs[j] ∈ (bs.drop (i + 1)).take (j - i) :=
    List.getElem?_mem
      (show ((bs.drop (i + 1)).take (j - i))[j - i - 1]? = some (bs[j]) by
        rw [List.getElem?_take_of_lt (by omega), List.getElem?_drop,
          show i + 1 + (j - i - 1) = j by omega]
        exact hbj)
  have hcj : (bs.take (i + 1)).count (bs[j]) < (bs.take (j + 1)).count (bs[j]) := by
    rw [hsplit, List.count_append]
    have := List.one_le_count_iff.mpr hmm
    omega
  have := specGen_inj (bs[j]) _ _ (by omega) (by omega) heq
  omega

/-- C6 (amended): `buildFillablePdf` names the k-th occurrence of a base
name (in field processing order, skipping fields whose `pageIndex` has no
page) with the base for k = 1 and `base_k` for k ≥ 2; occurrences of the
same base always receive distinct names, but names are NOT pairwise
distinct across different bases — a field whose base name equals another
base's suffixed form collides (see the counterexample). -/
theorem widget_name_policy :
    (∀ (pages : List PageMeta) (fields : List Field),
        synthWidgetNames pages fields = specAssign [] (processedBases pages fields)) ∧
      (∀ (b : String) (k k' : Nat), 1 ≤ k → 1 ≤ k' → specGen b k = specGen b k' → k = k') ∧
      (∀ (bs : List String) (i j : Nat), i < j → j < bs.length → bs[i]? = bs[j]? →
        (specAssign [] bs)[i]? ≠ (specAssign [] bs)[j]?) :=
  ⟨fun pages fields => synthNamesAux_spec pages fields [] (fun _ => 0) (by simp),
    specGen_inj,
    fun bs i j => specAssign_same_base_distinct [] bs i j⟩

/-- Counterexample to C6 as stated: base names `a`, `a_2`, `a` receive
widget names `a`, `a_2`, `a_2` — not pairwise distinct. -/
theorem widget_name_counterexample :
    synthWidgetNames [scanPage] [collideFieldA, collideFieldA2, collideFieldA'] =
        ["a", "a_2", "a_2"] ∧
      ¬ (synthWidgetNames [scanPage]
          [collideFieldA, collideFieldA2, collideFieldA']).Nodup :=
  ⟨by decide, by decide⟩

/-- Witness for C6 (amended): two occurrences of the base `a` get the
distinct names `a` and `a_2`. -/
theorem widget_name_policy_witness :
    (specAssign [] ["a", "a"])[0]? ≠ (specAssign [] ["a", "a"])[1]? :=
  widget_name_policy.2.2 ["a", "a"] 0 1 (by decide) (by decide) rfl

end PdfFill
